import Mathlib

/- Verification of the batch document converter `temp/convert.go`:
   a shallow embedding of `main` as a pure event-trace semantics, together
   with embeddings of the Go library helpers it calls
   (`strings.HasSuffix`, `strings.TrimSuffix`, `filepath.Clean`,
   `filepath.Join`) and spec-level models of `os.ReadDir` ordering and
   `os.MkdirAll`. -/

/-- Go `strings.HasSuffix s suffix`: literal suffix test. -/
def hasSuffix (s suffix : String) : Bool :=
  suffix.data.isSuffixOf s.data

/-- Go `strings.TrimSuffix s suffix`: drops the suffix when present,
otherwise returns the string unchanged. -/
def trimSuffix (s suffix : String) : String :=
  if hasSuffix s suffix then String.mk (s.data.take (s.data.length - suffix.data.length))
  else s

/-- Splits a character list at every occurrence of the separator `c`,
mirroring how `filepath.Clean` walks a path element by element. -/
def splitOnChar (c : Char) : List Char → List (List Char)
  | [] => [[]]
  | x :: xs =>
    match splitOnChar c xs with
    | [] => [[]]
    | h :: t => if x = c then [] :: h :: t else (x :: h) :: t

/-- The element processing inside Go `path/filepath.Clean`: `stack` holds the
output elements in reverse; empty and `"."` elements are dropped, and `".."`
removes the preceding element (it is kept literally at the start of a relative
path and dropped at the root of an absolute one). -/
def cleanElems (rooted : Bool) : List (List Char) → List (List Char) → List (List Char)
  | stack, [] => stack
  | stack, e :: rest =>
    if e = [] ∨ e = ['.'] then cleanElems rooted stack rest
    else if e = ['.', '.'] then
      match stack with
      | [] =>
        if rooted then cleanElems rooted [] rest
        else cleanElems rooted [['.', '.']] rest
      | top :: below =>
        if top = ['.', '.'] then cleanElems rooted (['.', '.'] :: top :: below) rest
        else cleanElems rooted below rest
    else cleanElems rooted (e :: stack) rest

/-- Go `path/filepath.Clean` with the Unix separator: the shortest lexically
equivalent path; the empty path cleans to `"."`. -/
def filepathClean (path : String) : String :=
  match path.data with
  | [] => "."
  | c :: cs =>
    let rooted := c = '/'
    let joined :=
      List.intercalate ['/'] ((cleanElems rooted [] (splitOnChar '/' (c :: cs))).reverse)
    if rooted then String.mk ('/' :: joined)
    else if joined = [] then "." else String.mk joined

/-- Go `path/filepath.Join` for two elements: empty elements are dropped, the
rest are joined with the separator and the result is cleaned; all-empty input
gives the empty string. -/
def filepathJoin (dir name : String) : String :=
  if dir = "" then (if name = "" then "" else filepathClean name)
  else if name = "" then filepathClean dir
  else filepathClean (dir ++ "/" ++ name)

/-- A directory entry as returned by `os.ReadDir` (`fs.DirEntry`); the parts
`convert.go` reads are the name and the directory flag. -/
structure DirEntry where
  name : String
  isDir : Bool
deriving DecidableEq, Repr

/-- An observable effect of one run of `main` in `temp/convert.go`: a line
printed to standard output, an `os.MkdirAll` attempt, or a synchronous
invocation of the external tool via `exec.Command(...).Run()`. -/
inductive Event where
  | println (line : String)
  | mkdirAll (dir : String) (perm : Nat)
  | run (cmd : String) (args : List String)
deriving DecidableEq, Repr

/-- The ambient world `main` interacts with: the raw (unsorted) entries of the
current working directory or a read error, the outcome of `os.MkdirAll`, and
the outcome (`nil` or an error) of `Run` for each possible command line. -/
structure Env where
  rawEntries : Except String (List DirEntry)
  mkdirAllResult : Except String Unit
  runResult : String → List String → Except String Unit

/-- Modelled from the spec: `os.ReadDir` is Go standard-library code, not part
of src/. The spec defers entry order to "the underlying enumeration", whose
documented contract is that entries are sorted by filename; the model sorts
the raw entries by name. -/
def sortEntries (l : List DirEntry) : List DirEntry :=
  l.mergeSort (fun a b => decide (a.name ≤ b.name))

/-- Modelled from the spec: `os.ReadDir` either fails with an error or yields
the filename-sorted entries of the directory. -/
def osReadDir (raw : Except String (List DirEntry)) : Except String (List DirEntry) :=
  match raw with
  | Except.error e => Except.error e
  | Except.ok l => Except.ok (sortEntries l)

/-- Line 29 of `convert.go`:
`outputName := strings.TrimSuffix(inputName, ".md") + ".html"`. -/
def destName (inputName : String) : String :=
  trimSuffix inputName ".md" ++ ".html"

/-- Line 31 of `convert.go`: `src := filepath.Clean(inputName)`. -/
def srcPath (inputName : String) : String :=
  filepathClean inputName

/-- Line 32 of `convert.go`: `dst := filepath.Join(outputDir, outputName)`
with `outputDir = "html"`. -/
def dstPath (inputName : String) : String :=
  filepathJoin "html" (destName inputName)

/-- Line 34 of `convert.go`: the argument list passed to
`exec.Command("pandoc", src, "-o", dst)`. -/
def jobArgs (inputName : String) : List String :=
  [srcPath inputName, "-o", dstPath inputName]

/-- The loop body of `main` (lines 25–42 of `convert.go`) for one directory
entry: print the entry's name; when the entry is not a directory and its name
ends in `".md"`, invoke the external tool synchronously and print the per-file
outcome (the failure line uses `outputName`, the success line uses `dst`). -/
def processEntry (env : Env) (f : DirEntry) : List Event :=
  Event.println f.name ::
    (if !f.isDir && hasSuffix f.name ".md" then
      Event.run "pandoc" (jobArgs f.name) ::
        (match env.runResult "pandoc" (jobArgs f.name) with
         | Except.error e =>
             [Event.println
               ("Error converting " ++ f.name ++ " to " ++ destName f.name ++ ": " ++ e)]
         | Except.ok _ =>
             [Event.println ("Converted " ++ f.name ++ " to " ++ dstPath f.name ++ ".")])
    else [])

/-- The whole of `main` (lines 11–45 of `convert.go`): the trace of observable
events paired with the process exit status. Every path leaves `main` by a
plain `return` or by falling off the end, so the Go runtime exits with
status 0. -/
def mainRun (env : Env) : List Event × Nat :=
  match osReadDir env.rawEntries with
  | Except.error err =>
      ([Event.println ("Error reading directory: " ++ err)], 0)
  | Except.ok file =>
    match env.mkdirAllResult with
    | Except.error err =>
        ([Event.mkdirAll "html" 0o755,
          Event.println ("Error creating output directory: " ++ err)], 0)
    | Except.ok _ =>
        (Event.mkdirAll "html" 0o755 ::
          (file.flatMap (processEntry env) ++ [Event.println "Done."]), 0)

/-- A minimal filesystem state for the output-directory claim: the existing
directory paths and the existing non-directory file paths. -/
structure FileSystem where
  dirs : List String
  files : List String
deriving DecidableEq

/-- Modelled from the spec: `os.MkdirAll` is Go standard-library code, not
part of src/. Per the spec it ensures the directory exists, "creating it (and
any missing parents) if absent", and fails on a "path collision with a
non-directory"; for the separator-free path `"html"` that `main` passes there
are no parents, so the model creates the one directory: it returns the state
unchanged when the directory already exists, an error when the path names an
existing non-directory, and otherwise adds the directory. The permission
argument mirrors the mode `main` passes. -/
def mkdirAll (fs : FileSystem) (path : String) (perm : Nat) : Except String FileSystem :=
  if path ∈ fs.dirs then Except.ok fs
  else if path ∈ fs.files then Except.error "not a directory"
  else Except.ok { fs with dirs := path :: fs.dirs }

/-! ### Helper lemmas about the string and path helpers -/

theorem trimSuffix_append (s suf : String) (h : hasSuffix s suf = true) :
    trimSuffix s suf ++ suf = s := by
  have h' := h
  unfold hasSuffix at h'
  rw [List.isSuffixOf_iff_suffix] at h'
  obtain ⟨t, ht⟩ := h'
  apply String.ext
  rw [String.data_append]
  unfold trimSuffix
  rw [if_pos h]
  show (s.data.take (s.data.length - suf.data.length)) ++ suf.data = s.data
  rw [← ht]
  have hlen : (t ++ suf.data).length - suf.data.length = t.length := by simp
  rw [hlen, List.take_left]

theorem splitOnChar_not_mem (c : Char) (l : List Char) (h : c ∉ l) :
    splitOnChar c l = [l] := by
  induction l with
  | nil => rfl
  | cons x xs ih =>
    have hx : ¬ x = c := by
      intro e; exact h (e ▸ List.mem_cons_self x xs)
    have hxs : c ∉ xs := fun m => h (List.mem_cons_of_mem _ m)
    simp [splitOnChar, ih hxs, hx]

theorem splitOnChar_html (n : List Char) (h : '/' ∉ n) :
    splitOnChar '/' ('h' :: 't' :: 'm' :: 'l' :: '/' :: n) =
      [['h', 't', 'm', 'l'], n] := by
  simp [splitOnChar, splitOnChar_not_mem '/' n h]

theorem filepathJoin_html (n : String) (hne : n.data ≠ []) (hs : '/' ∉ n.data)
    (h1 : n.data ≠ ['.']) (h2 : n.data ≠ ['.', '.']) :
    filepathJoin "html" n = "html/" ++ n := by
  have hnstr : ¬ n = "" := by
    intro e; apply hne; rw [e]
  have hdata : ("html" ++ "/" ++ n).data = 'h' :: 't' :: 'm' :: 'l' :: '/' :: n.data := by
    simp [String.data_append]
  unfold filepathJoin
  rw [if_neg (by decide : ¬ ("html" : String) = ""), if_neg hnstr]
  unfold filepathClean
  rw [hdata]
  simp only
  rw [splitOnChar_html n.data hs]
  rw [show cleanElems ('h' = '/') [] [['h', 't', 'm', 'l'], n.data] =
        cleanElems ('h' = '/') [['h', 't', 'm', 'l']] [n.data] from by
      simp [cleanElems]]
  rw [show cleanElems ('h' = '/') [['h', 't', 'm', 'l']] [n.data] =
        [n.data, ['h', 't', 'm', 'l']] from by
      simp [cleanElems, hne, h1, h2]]
  apply String.ext
  simp [String.data_append, List.intercalate]

/-! ### Helper lemmas about the run trace -/

theorem mainRun_ok_trace (env : Env) (l : List DirEntry)
    (hraw : env.rawEntries = Except.ok l) (hmk : env.mkdirAllResult = Except.ok ()) :
    (mainRun env).1 =
      Event.mkdirAll "html" 0o755 ::
        ((sortEntries l).flatMap (processEntry env) ++ [Event.println "Done."]) := by
  simp [mainRun, osReadDir, hraw, hmk]

theorem processEntry_eligible (env : Env) (f : DirEntry)
    (hd : f.isDir = false) (hm : hasSuffix f.name ".md" = true) :
    processEntry env f =
      [Event.println f.name,
       Event.run "pandoc" [srcPath f.name, "-o", dstPath f.name],
       Event.println
         (match env.runResult "pandoc" (jobArgs f.name) with
          | Except.error e =>
              "Error converting " ++ f.name ++ " to " ++ destName f.name ++ ": " ++ e
          | Except.ok _ =>
              "Converted " ++ f.name ++ " to " ++ dstPath f.name ++ ".")] := by
  cases hr : env.runResult "pandoc" (jobArgs f.name) with
  | error e =>
    simp only [jobArgs] at hr
    simp [processEntry, hd, hm, jobArgs, hr]
  | ok u =>
    simp only [jobArgs] at hr
    simp [processEntry, hd, hm, jobArgs, hr]

theorem mem_trace_of_mem_entry (env : Env) (l : List DirEntry) (f : DirEntry) (ev : Event)
    (hraw : env.rawEntries = Except.ok l) (hmk : env.mkdirAllResult = Except.ok ())
    (hf : f ∈ l) (hev : ev ∈ processEntry env f) :
    ev ∈ (mainRun env).1 := by
  rw [mainRun_ok_trace env l hraw hmk]
  apply List.mem_cons_of_mem
  apply List.mem_append_left
  rw [List.mem_flatMap]
  refine ⟨f, ?_, hev⟩
  exact ((List.mergeSort_perm l _).mem_iff).mpr hf

/-! ### Concrete environments used by the witnesses -/

/-- An environment whose directory listing is empty and where every operation
succeeds. -/
def envEmptyDir : Env :=
  ⟨Except.ok [], Except.ok (), fun _ _ => Except.ok ()⟩

/-- An environment whose directory read fails. -/
def envReadFail : Env :=
  ⟨Except.error "permission denied", Except.ok (), fun _ _ => Except.ok ()⟩

/-- An environment whose directory listing succeeds but whose output-directory
creation fails. -/
def envMkdirFail : Env :=
  ⟨Except.ok [⟨"a.md", false⟩], Except.error "permission denied",
   fun _ _ => Except.ok ()⟩

/-- An environment with two markdown files where the conversion of `a.md`
fails and every other conversion succeeds. -/
def envAFails : Env :=
  ⟨Except.ok [⟨"a.md", false⟩, ⟨"b.md", false⟩], Except.ok (),
   fun _ args => if args = jobArgs "a.md" then Except.error "exit status 1"
                 else Except.ok ()⟩

/-- An environment with one markdown file where every operation succeeds. -/
def envOneFile : Env :=
  ⟨Except.ok [⟨"a.md", false⟩], Except.ok (), fun _ _ => Except.ok ()⟩

/-- An environment listing two markdown files in non-sorted raw order, where
every operation succeeds. -/
def envTwoFiles : Env :=
  ⟨Except.ok [⟨"b.md", false⟩, ⟨"a.md", false⟩], Except.ok (),
   fun _ _ => Except.ok ()⟩

/-! ### The claims -/

/-- C2: if enumerating the working directory fails, the run aborts after
reporting the error — the trace is the single error line, so no `MkdirAll`
attempt (the `html` directory is not created) and no conversion subprocess
occurs. -/
theorem readdir_error_aborts (env : Env) (e : String)
    (h : env.rawEntries = Except.error e) :
    (mainRun env).1 = [Event.println ("Error reading directory: " ++ e)] ∧
    (∀ d p, Event.mkdirAll d p ∉ (mainRun env).1) ∧
    (∀ c args, Event.run c args ∉ (mainRun env).1) := by
  have heq : (mainRun env).1 = [Event.println ("Error reading directory: " ++ e)] := by
    simp [mainRun, osReadDir, h]
  refine ⟨heq, ?_, ?_⟩ <;> intro a b hmem <;> rw [heq] at hmem <;> simp at hmem

/-- Witness for C2 at a concrete environment whose read fails. -/
theorem readdir_error_aborts_witness :
    (mainRun envReadFail).1 =
      [Event.println ("Error reading directory: " ++ "permission denied")] ∧
    (∀ d p, Event.mkdirAll d p ∉ (mainRun envReadFail).1) ∧
    (∀ c args, Event.run c args ∉ (mainRun envReadFail).1) :=
  readdir_error_aborts envReadFail "permission denied" rfl

/-- C4: a directory entry, or an entry whose name does not end in ".md" under
the case-sensitive exact suffix test, contributes only its printed name to the
trace: the external tool is never invoked for it (hence it produces no output
file). -/
theorem skip_non_matching (env : Env) (f : DirEntry)
    (h : f.isDir = true ∨ hasSuffix f.name ".md" = false) :
    processEntry env f = [Event.println f.name] ∧
    ∀ c args, Event.run c args ∉ processEntry env f := by
  have heq : processEntry env f = [Event.println f.name] := by
    rcases h with h | h
    · simp [processEntry, h]
    · simp [processEntry, h]
  refine ⟨heq, ?_⟩
  intro c args hmem
  rw [heq] at hmem
  simp at hmem

/-- Witness for C4 at a concrete sub-directory entry. -/
theorem skip_non_matching_witness :
    processEntry envEmptyDir ⟨"drafts", true⟩ = [Event.println "drafts"] ∧
    ∀ c args, Event.run c args ∉ processEntry envEmptyDir ⟨"drafts", true⟩ :=
  skip_non_matching envEmptyDir ⟨"drafts", true⟩ (Or.inl rfl)

/-- C7: if creating the output directory fails, the trace is exactly the
`MkdirAll` attempt followed by the error line — the run aborts before any
entry is examined and no conversion subprocess is invoked. -/
theorem mkdir_error_aborts (env : Env) (l : List DirEntry) (e : String)
    (hraw : env.rawEntries = Except.ok l) (hmk : env.mkdirAllResult = Except.error e) :
    (mainRun env).1 =
      [Event.mkdirAll "html" 0o755,
       Event.println ("Error creating output directory: " ++ e)] ∧
    (∀ c args, Event.run c args ∉ (mainRun env).1) := by
  have heq : (mainRun env).1 =
      [Event.mkdirAll "html" 0o755,
       Event.println ("Error creating output directory: " ++ e)] := by
    simp [mainRun, osReadDir, hraw, hmk]
  refine ⟨heq, ?_⟩
  intro c args hmem
  rw [heq] at hmem
  simp at hmem

/-- Witness for C7 at a concrete environment whose directory creation fails,
with a matching file present in the listing. -/
theorem mkdir_error_aborts_witness :
    (mainRun envMkdirFail).1 =
      [Event.mkdirAll "html" 0o755,
       Event.println ("Error creating output directory: " ++ "permission denied")] ∧
    (∀ c args, Event.run c args ∉ (mainRun envMkdirFail).1) :=
  mkdir_error_aborts envMkdirFail [⟨"a.md", false⟩] "permission denied" rfl rfl

/-- C8: the process exit status is 0 on every path of `main`, including both
fatal directory-level error paths and runs where every conversion failed. -/
theorem exit_status_zero (env : Env) : (mainRun env).2 = 0 := by
  unfold mainRun
  split
  · rfl
  · split
    · rfl
    · rfl

/-- C1: for a non-directory entry whose name ends in ".md", the destination
name is the source name with the ".md" suffix stripped and ".html" appended,
and the destination path is the join of the output directory "html" with that
destination name — concretely "html/" followed by it; the conversion
invocation for the entry uses exactly this destination path. -/
theorem dest_derivation (env : Env) (f : DirEntry)
    (hd : f.isDir = false) (hm : hasSuffix f.name ".md" = true)
    (hslash : '/' ∉ f.name.data) :
    ∃ stem : String,
      stem ++ ".md" = f.name ∧
      destName f.name = stem ++ ".html" ∧
      dstPath f.name = filepathJoin "html" (destName f.name) ∧
      dstPath f.name = "html/" ++ (stem ++ ".html") ∧
      Event.run "pandoc" [srcPath f.name, "-o", dstPath f.name] ∈ processEntry env f := by
  refine ⟨trimSuffix f.name ".md", trimSuffix_append f.name ".md" hm, rfl, rfl, ?_, ?_⟩
  · have ht := trimSuffix_append f.name ".md" hm
    have hdata : (trimSuffix f.name ".md" ++ (".html" : String)).data =
        (trimSuffix f.name ".md").data ++ ['.', 'h', 't', 'm', 'l'] := by
      rw [String.data_append]
    have hstemslash : '/' ∉ (trimSuffix f.name ".md").data := by
      intro hmem
      apply hslash
      rw [← ht, String.data_append]
      exact List.mem_append_left _ hmem
    have hne : (trimSuffix f.name ".md" ++ (".html" : String)).data ≠ [] := by
      rw [hdata]; simp
    have hs : '/' ∉ (trimSuffix f.name ".md" ++ (".html" : String)).data := by
      rw [hdata]
      intro hmem
      rcases List.mem_append.mp hmem with h | h
      · exact hstemslash h
      · simp at h
    have h1 : (trimSuffix f.name ".md" ++ (".html" : String)).data ≠ ['.'] := by
      rw [hdata]
      intro e
      have := congrArg List.length e
      simp at this
    have h2 : (trimSuffix f.name ".md" ++ (".html" : String)).data ≠ ['.', '.'] := by
      rw [hdata]
      intro e
      have := congrArg List.length e
      simp at this
    show filepathJoin "html" (destName f.name) = "html/" ++ (trimSuffix f.name ".md" ++ ".html")
    exact filepathJoin_html _ hne hs h1 h2
  · rw [processEntry_eligible env f hd hm]
    simp

/-- Witness for C1 at the concrete file "a.md". -/
theorem dest_derivation_witness :
    ∃ stem : String,
      stem ++ ".md" = (DirEntry.mk "a.md" false).name ∧
      destName (DirEntry.mk "a.md" false).name = stem ++ ".html" ∧
      dstPath (DirEntry.mk "a.md" false).name =
        filepathJoin "html" (destName (DirEntry.mk "a.md" false).name) ∧
      dstPath (DirEntry.mk "a.md" false).name = "html/" ++ (stem ++ ".html") ∧
      Event.run "pandoc"
          [srcPath (DirEntry.mk "a.md" false).name, "-o",
           dstPath (DirEntry.mk "a.md" false).name] ∈
        processEntry envOneFile (DirEntry.mk "a.md" false) :=
  dest_derivation envOneFile ⟨"a.md", false⟩ rfl (by decide) (by decide)

/-- C5: for an eligible entry the loop body is exactly the printed name, one
subprocess invocation with the argument list source path, "-o", destination
path, and the outcome line that the run result alone determines — the
invocation is awaited within the entry's own segment; and under a successful
read and directory creation the whole trace is the strictly sequential
concatenation of the per-entry segments. -/
theorem invoke_synchronous (env : Env) (f : DirEntry) (l : List DirEntry)
    (hd : f.isDir = false) (hm : hasSuffix f.name ".md" = true)
    (hraw : env.rawEntries = Except.ok l) (hmk : env.mkdirAllResult = Except.ok ()) :
    processEntry env f =
      [Event.println f.name,
       Event.run "pandoc" [srcPath f.name, "-o", dstPath f.name],
       Event.println
         (match env.runResult "pandoc" (jobArgs f.name) with
          | Except.error e =>
              "Error converting " ++ f.name ++ " to " ++ destName f.name ++ ": " ++ e
          | Except.ok _ =>
              "Converted " ++ f.name ++ " to " ++ dstPath f.name ++ ".")] ∧
    (mainRun env).1 =
      Event.mkdirAll "html" 0o755 ::
        ((sortEntries l).flatMap (processEntry env) ++ [Event.println "Done."]) :=
  ⟨processEntry_eligible env f hd hm, mainRun_ok_trace env l hraw hmk⟩

/-- Witness for C5 at the concrete file "a.md". -/
theorem invoke_synchronous_witness :
    processEntry envOneFile (DirEntry.mk "a.md" false) =
      [Event.println (DirEntry.mk "a.md" false).name,
       Event.run "pandoc"
         [srcPath (DirEntry.mk "a.md" false).name, "-o",
          dstPath (DirEntry.mk "a.md" false).name],
       Event.println
         (match envOneFile.runResult "pandoc" (jobArgs (DirEntry.mk "a.md" false).name) with
          | Except.error e =>
              "Error converting " ++ (DirEntry.mk "a.md" false).name ++ " to " ++
                destName (DirEntry.mk "a.md" false).name ++ ": " ++ e
          | Except.ok _ =>
              "Converted " ++ (DirEntry.mk "a.md" false).name ++ " to " ++
                dstPath (DirEntry.mk "a.md" false).name ++ ".")] ∧
    (mainRun envOneFile).1 =
      Event.mkdirAll "html" 0o755 ::
        ((sortEntries [⟨"a.md", false⟩]).flatMap (processEntry envOneFile) ++
          [Event.println "Done."]) :=
  invoke_synchronous envOneFile ⟨"a.md", false⟩ [⟨"a.md", false⟩] rfl (by decide) rfl rfl

/-- C6: the ".md" test is a literal suffix comparison, not last-dot extension
parsing: a name matches exactly when it is some stem followed by ".md";
"archive.md.bak" does not match and contributes only its printed name, while
the hidden name ".md" matches and is treated as a convertible source file
(its conversion is invoked). -/
theorem literal_suffix_semantics :
    (∀ s : String, hasSuffix s ".md" = true ↔ ∃ stem : String, s = stem ++ ".md") ∧
    hasSuffix "archive.md.bak" ".md" = false ∧
    hasSuffix ".md" ".md" = true ∧
    (∀ env : Env,
      processEntry env ⟨"archive.md.bak", false⟩ = [Event.println "archive.md.bak"]) ∧
    (∀ env : Env,
      Event.run "pandoc" (jobArgs ".md") ∈ processEntry env ⟨".md", false⟩) := by
  refine ⟨?_, by decide, by decide, ?_, ?_⟩
  · intro s
    constructor
    · intro h
      exact ⟨trimSuffix s ".md", (trimSuffix_append s ".md" h).symm⟩
    · rintro ⟨stem, rfl⟩
      unfold hasSuffix
      rw [List.isSuffixOf_iff_suffix]
      exact ⟨stem.data, (String.data_append stem ".md").symm⟩
  · intro env
    have h : hasSuffix "archive.md.bak" ".md" = false := by decide
    simp [processEntry, h]
  · intro env
    have h : hasSuffix ".md" ".md" = true := by decide
    rw [processEntry_eligible env ⟨".md", false⟩ rfl h]
    simp [jobArgs]

/-- C3: a per-file conversion failure is logged with the source name, the
destination name and the underlying error, and processing continues: a failing
conversion for entry `a` never prevents the conversion attempt for another
entry `b` of the same run. -/
theorem conversion_failure_isolated (env : Env) (l : List DirEntry)
    (a b : DirEntry) (ea : String)
    (hraw : env.rawEntries = Except.ok l) (hmk : env.mkdirAllResult = Except.ok ())
    (hal : a ∈ l) (hbl : b ∈ l)
    (had : a.isDir = false) (ham : hasSuffix a.name ".md" = true)
    (hfail : env.runResult "pandoc" (jobArgs a.name) = Except.error ea)
    (hbd : b.isDir = false) (hbm : hasSuffix b.name ".md" = true) :
    Event.println ("Error converting " ++ a.name ++ " to " ++ destName a.name ++ ": " ++ ea)
        ∈ (mainRun env).1 ∧
    Event.run "pandoc" [srcPath b.name, "-o", dstPath b.name] ∈ (mainRun env).1 := by
  constructor
  · apply mem_trace_of_mem_entry env l a _ hraw hmk hal
    rw [processEntry_eligible env a had ham, hfail]
    simp
  · apply mem_trace_of_mem_entry env l b _ hraw hmk hbl
    rw [processEntry_eligible env b hbd hbm]
    simp

/-- Witness for C3: with "a.md" failing and "b.md" succeeding, the failure
line for "a.md" is logged and the conversion for "b.md" is still invoked. -/
theorem conversion_failure_isolated_witness :
    Event.println
        ("Error converting " ++ "a.md" ++ " to " ++ destName "a.md" ++ ": " ++
          "exit status 1") ∈ (mainRun envAFails).1 ∧
    Event.run "pandoc" [srcPath "b.md", "-o", dstPath "b.md"] ∈ (mainRun envAFails).1 :=
  conversion_failure_isolated envAFails [⟨"a.md", false⟩, ⟨"b.md", false⟩]
    ⟨"a.md", false⟩ ⟨"b.md", false⟩ "exit status 1" rfl rfl
    (by simp) (by simp) rfl (by decide) (by simp [envAFails]) rfl (by decide)

/-- C9: creation of the output directory is idempotent: when the path does not
collide with a non-directory file, creation succeeds and the directory exists
afterwards, re-running the creation neither errors nor changes the state, and
an already existing directory is returned exactly as it was; `main` requests
exactly this creation, for "html" with mode 0o755, whenever the directory
read succeeds. -/
theorem output_dir_idempotent (fs : FileSystem) (path : String) (env : Env)
    (l : List DirEntry)
    (hnf : path ∉ fs.files) (hraw : env.rawEntries = Except.ok l) :
    (∃ fs' : FileSystem,
      mkdirAll fs path 0o755 = Except.ok fs' ∧
      path ∈ fs'.dirs ∧
      mkdirAll fs' path 0o755 = Except.ok fs' ∧
      (path ∈ fs.dirs → fs' = fs)) ∧
    Event.mkdirAll "html" 0o755 ∈ (mainRun env).1 := by
  constructor
  · by_cases hmem : path ∈ fs.dirs
    · exact ⟨fs, by simp [mkdirAll, hmem], hmem, by simp [mkdirAll, hmem], fun _ => rfl⟩
    · refine ⟨⟨path :: fs.dirs, fs.files⟩, ?_, ?_, ?_, ?_⟩
      · simp [mkdirAll, hmem, hnf]
      · exact List.mem_cons_self _ _
      · simp [mkdirAll]
      · intro h; exact absurd h hmem
  · cases hmk : env.mkdirAllResult with
    | error e => simp [mainRun, osReadDir, hraw, hmk]
    | ok u => simp [mainRun, osReadDir, hraw, hmk]

/-- Witness for C9 on an initially empty filesystem and the empty listing. -/
theorem output_dir_idempotent_witness :
    (∃ fs' : FileSystem,
      mkdirAll ⟨[], []⟩ "html" 0o755 = Except.ok fs' ∧
      "html" ∈ fs'.dirs ∧
      mkdirAll fs' "html" 0o755 = Except.ok fs' ∧
      ("html" ∈ FileSystem.dirs ⟨[], []⟩ → fs' = ⟨[], []⟩)) ∧
    Event.mkdirAll "html" 0o755 ∈ (mainRun envEmptyDir).1 :=
  output_dir_idempotent ⟨[], []⟩ "html" envEmptyDir [] (by simp) rfl

/-- C10: under a successful read and directory creation the run processes the
filename-sorted permutation of the raw entries — the trace is the sequential
concatenation of per-entry segments over `sortEntries` — the sorted list is
pairwise ordered by name and a permutation of the raw listing, and every
entry's segment starts by printing the entry's name, before any skip
decision. -/
theorem sorted_processing_order (env : Env) (l : List DirEntry)
    (hraw : env.rawEntries = Except.ok l) (hmk : env.mkdirAllResult = Except.ok ()) :
    (mainRun env).1 =
      Event.mkdirAll "html" 0o755 ::
        ((sortEntries l).flatMap (processEntry env) ++ [Event.println "Done."]) ∧
    List.Pairwise (fun a b : DirEntry => a.name ≤ b.name) (sortEntries l) ∧
    (sortEntries l).Perm l ∧
    (∀ f : DirEntry, ∃ rest, processEntry env f = Event.println f.name :: rest) := by
  refine ⟨mainRun_ok_trace env l hraw hmk, ?_, List.mergeSort_perm l _, fun f => ⟨_, rfl⟩⟩
  have hp : List.Pairwise
      (fun a b : DirEntry => (decide (a.name ≤ b.name)) = true)
      (l.mergeSort (fun a b => decide (a.name ≤ b.name))) := by
    apply List.sorted_mergeSort
    · intro a b c hab hbc
      exact decide_eq_true (le_trans (of_decide_eq_true hab) (of_decide_eq_true hbc))
    · intro a b
      rcases le_total a.name b.name with h | h
      · simp [h]
      · simp [h]
  exact hp.imp (fun hab => of_decide_eq_true hab)

/-- Witness for C10 on a listing whose raw order is not sorted. -/
theorem sorted_processing_order_witness :
    (mainRun envTwoFiles).1 =
      Event.mkdirAll "html" 0o755 ::
        ((sortEntries [⟨"b.md", false⟩, ⟨"a.md", false⟩]).flatMap
            (processEntry envTwoFiles) ++ [Event.println "Done."]) ∧
    List.Pairwise (fun a b : DirEntry => a.name ≤ b.name)
      (sortEntries [⟨"b.md", false⟩, ⟨"a.md", false⟩]) ∧
    (sortEntries [⟨"b.md", false⟩, ⟨"a.md", false⟩]).Perm
      [⟨"b.md", false⟩, ⟨"a.md", false⟩] ∧
    (∀ f : DirEntry, ∃ rest,
      processEntry envTwoFiles f = Event.println f.name :: rest) :=
  sorted_processing_order envTwoFiles [⟨"b.md", false⟩, ⟨"a.md", false⟩] rfl rfl
